import Mathlib

/-!
Verification of the lawnrouter profit-routing core.

This file shallowly embeds the routing engine of the repository:
`app/services/costs.py`, `app/services/geo.py`, `app/services/mapbox_matrix.py`,
`app/services/optimizer.py` and `app/services/optimizer_mapbox.py`.

Modelling conventions:
- Python `Decimal` and `float` values are embedded as `ℚ`; `Decimal` raises
  `DivisionByZero` on division by zero, so `CostModel.cost_per_mile` is
  `Option ℚ` with `none` for the raised exception.
- Python `round(x)` / `Decimal.quantize(..., ROUND_HALF_EVEN)` both use
  banker's rounding, embedded as `roundHalfEven`.
- The external HTTP matrix service is an oracle `Net`; a non-2xx response or a
  raised exception is `Except.error`.  Every embedded fetch also returns the
  list of network requests it issued, so "fails before any network request"
  is expressible.
- The OR-Tools solver is an external collaborator: its solution is an input
  (`Option (ℕ → List ℕ)`, the per-vehicle node sequences observed through
  `IndexToNode` along the `NextVar` chain; the trailing end node maps to the
  depot 0).  `None` models "no feasible solution".
- Python in-place mutation of the stitched N×N arrays is embedded as update
  of a total function `ℕ → ℕ → Option ℚ`, converted to row lists at the end.
-/

/-- Banker's rounding to the nearest integer, as used by Python `round` and by
`Decimal.quantize` with the default `ROUND_HALF_EVEN` context. -/
def roundHalfEven (q : ℚ) : ℤ :=
  if Int.fract q < 1 / 2 then ⌊q⌋
  else if 1 / 2 < Int.fract q then ⌊q⌋ + 1
  else if 2 ∣ ⌊q⌋ then ⌊q⌋ else ⌊q⌋ + 1

/-- `Decimal.quantize(Decimal("0.01"))`: round to cent precision. -/
def quantizeCents (q : ℚ) : ℚ := (roundHalfEven (q * 100) : ℚ) / 100

/-- Python `round(x, 3)`: round to three decimal places. -/
def roundPy3 (q : ℚ) : ℚ := (roundHalfEven (q * 1000) : ℚ) / 1000

/-- Embeds `app/services/costs.py::CostModel` (a frozen dataclass; note that
its constructor performs no validation of any field). -/
structure CostModel where
  gas_price_per_gallon : ℚ
  mpg : ℚ
  maintenance_cost_per_mile : ℚ
  depreciation_cost_per_mile : ℚ := 0
  labor_cost_per_hour : ℚ := 0
  avg_speed_mph : ℚ := 25
deriving DecidableEq

/-- Embeds `CostModel.cost_per_mile`:
`(gas_price_per_gallon / mpg) + maintenance + depreciation`.
`Decimal` division raises `DivisionByZero` when `mpg == 0`, embedded as
`none`. -/
def CostModel.cost_per_mile (cm : CostModel) : Option ℚ :=
  if cm.mpg = 0 then none
  else some (cm.gas_price_per_gallon / cm.mpg
    + cm.maintenance_cost_per_mile + cm.depreciation_cost_per_mile)

/-- Embeds `CostModel.labor_cost_per_minute`: `labor_cost_per_hour / 60`. -/
def CostModel.labor_cost_per_minute (cm : CostModel) : ℚ :=
  cm.labor_cost_per_hour / 60

/-! ## Geometric estimator (`app/services/geo.py`) -/

/-- Python `math.radians`: degrees to radians. -/
noncomputable def radians (x : ℝ) : ℝ := x * Real.pi / 180

/-- C/Python `math.atan2(y, x)` by its piecewise definition. -/
noncomputable def pyAtan2 (y x : ℝ) : ℝ :=
  if 0 < x then Real.arctan (y / x)
  else if x < 0 ∧ 0 ≤ y then Real.arctan (y / x) + Real.pi
  else if x < 0 then Real.arctan (y / x) - Real.pi
  else if 0 < y then Real.pi / 2
  else if y < 0 then -(Real.pi / 2)
  else 0

/-- Embeds `geo.haversine_miles` for coordinate pairs `(lat, lon)`. -/
noncomputable def haversine_miles (a b : ℝ × ℝ) : ℝ :=
  let R : ℝ := 3958.7613
  let dlat := radians (b.1 - a.1)
  let dlon := radians (b.2 - a.2)
  let rlat1 := radians a.1
  let rlat2 := radians b.1
  let h := Real.sin (dlat / 2) ^ 2
    + Real.cos rlat1 * Real.cos rlat2 * Real.sin (dlon / 2) ^ 2
  2 * R * pyAtan2 (Real.sqrt h) (Real.sqrt (1 - h))

/-- Python `int(...)` on a float: truncation toward zero. -/
noncomputable def pyInt (x : ℝ) : ℤ := if 0 ≤ x then ⌊x⌋ else ⌈x⌉

/-- Embeds `geo.build_distance_matrix_miles`: integer miles × 1000
(fixed point), zero diagonal.  The Python code allocates an n×n zero matrix
and assigns each entry; the embedding builds the same rows directly. -/
noncomputable def build_distance_matrix_miles (coords : List (ℝ × ℝ)) : List (List ℤ) :=
  (List.range coords.length).map fun i =>
    (List.range coords.length).map fun j =>
      if i = j then 0
      else pyInt (haversine_miles (coords.getD i (0, 0)) (coords.getD j (0, 0)) * 1000)

/-- Entry `[i][j]` of an integer matrix stored as row lists. -/
def cellZ (m : List (List ℤ)) (i j : ℕ) : ℤ := (m.getD i []).getD j 0

/-! ## External matrix provider (`app/services/mapbox_matrix.py`) -/

/-- Embeds `mapbox_matrix.MatrixResult`: durations in seconds and distances in
meters, per-cell nullable. -/
structure MatrixResult where
  durations : List (List (Option ℚ))
  distances : List (List (Option ℚ))
deriving DecidableEq

/-- Entry `[a][b]` of a nullable matrix stored as row lists
(`matrix[a][b]` in Python, for in-range indices). -/
def mcell (m : List (List (Option ℚ))) (a b : ℕ) : Option ℚ :=
  (m.getD a []).getD b none

/-- One Mapbox Matrix API request: the coordinate list of the call plus the
optional source/destination index subsets. -/
structure NetReq where
  coords : List (ℚ × ℚ)
  sources : Option (List ℕ)
  destinations : Option (List ℕ)
deriving DecidableEq

/-- The HTTP layer as an oracle.  `Except.error` collapses a non-2xx status
(`MapboxMatrixError`) or a malformed body. -/
def Net : Type := NetReq → Except String MatrixResult

/-- Embeds `mapbox_matrix.fetch_matrix`.  The access-token guard runs before
the request is built; the second component is the list of network requests
actually issued (empty when the guard fires). -/
def fetch_matrix (token : String) (net : Net) (coords : List (ℚ × ℚ))
    (sources destinations : Option (List ℕ)) :
    Except String MatrixResult × List NetReq :=
  if token = "" then (Except.error "MAPBOX_ACCESS_TOKEN is missing", [])
  else
    let req : NetReq := ⟨coords, sources, destinations⟩
    (net req, [req])

/-- The pair of full-size nullable matrices being stitched, embedded as total
functions (each Python list cell is written at most once). -/
structure MatsFun where
  durations : ℕ → ℕ → Option ℚ
  distances : ℕ → ℕ → Option ℚ

/-- Pointwise update of one cell, embedding `m[i][j] = v`. -/
def updFun (m : ℕ → ℕ → Option ℚ) (i j : ℕ) (v : Option ℚ) : ℕ → ℕ → Option ℚ :=
  fun a b => if a = i ∧ b = j then v else m a b

/-- The stitching loop of `_do_block`: for `i, oi in enumerate(range(o, oEnd))`
and `j, dj in enumerate(range(d, dEnd))`, write
`durations[oi][dj] = res.durations[i][j] if res.durations else None` and
likewise for distances. -/
def stitchBlock (st : MatsFun) (res : MatrixResult) (o oEnd d dEnd : ℕ) : MatsFun :=
  (List.range (oEnd - o)).foldl (fun acc i =>
    (List.range (dEnd - d)).foldl (fun acc2 j =>
      { durations := updFun acc2.durations (o + i) (d + j)
          (if res.durations.isEmpty then none else mcell res.durations i j)
        distances := updFun acc2.distances (o + i) (d + j)
          (if res.distances.isEmpty then none else mcell res.distances i j) }) acc) st

/-- Embeds `_do_block` for the block `(o, oEnd, d, dEnd)`: build the union
coordinate list, guard its size against `max_coords_per_request`, call
`fetch_matrix` with the block's source/destination index subsets, and stitch
the sub-result into the full matrices.  A raised `MapboxMatrixError` is
`Except.error`. -/
def _do_block (token : String) (net : Net) (coords : List (ℚ × ℚ))
    (max_coords_per_request : ℕ) (st : MatsFun) (blk : ℕ × ℕ × ℕ × ℕ) :
    Except String MatsFun × List NetReq :=
  let o := blk.1
  let oEnd := blk.2.1
  let d := blk.2.2.1
  let dEnd := blk.2.2.2
  let origins_block := (coords.drop o).take (oEnd - o)
  let dest_block := (coords.drop d).take (dEnd - d)
  let call_coords := origins_block ++ dest_block
  if max_coords_per_request < call_coords.length then
    (Except.error "Chunk too large", [])
  else
    let src := List.range origins_block.length
    let dst := (List.range dest_block.length).map (fun j => origins_block.length + j)
    match fetch_matrix token net call_coords (some src) (some dst) with
    | (Except.error e, log) => (Except.error e, log)
    | (Except.ok res, log) => (Except.ok (stitchBlock st res o oEnd d dEnd), log)

/-- Runs the block tasks of `fetch_full_square_matrix_chunked`.  The real code
awaits them with `asyncio.gather` (bounded by a semaphore); each cell is
written by exactly one task, so the observable result equals this sequential
run, and the first raised exception propagates out of `gather`, discarding
the other tasks' results. -/
def _run_blocks (token : String) (net : Net) (coords : List (ℚ × ℚ))
    (max_coords_per_request : ℕ) :
    MatsFun → List (ℕ × ℕ × ℕ × ℕ) → Except String MatsFun × List NetReq
  | st, [] => (Except.ok st, [])
  | st, blk :: rest =>
    match _do_block token net coords max_coords_per_request st blk with
    | (Except.error e, log) => (Except.error e, log)
    | (Except.ok st2, log) =>
      match _run_blocks token net coords max_coords_per_request st2 rest with
      | (r, log2) => (r, log ++ log2)

/-- Python `range(0, n, block)` for `block ≥ 1`. -/
def chunkStarts (n block : ℕ) : List ℕ :=
  (List.range ((n + block - 1) / block)).map (· * block)

/-- The origin-block × destination-block task list of the chunked fetch. -/
def blockTasks (n block : ℕ) : List (ℕ × ℕ × ℕ × ℕ) :=
  (chunkStarts n block).flatMap fun o =>
    (chunkStarts n block).map fun d =>
      (o, min n (o + block), d, min n (d + block))

/-- Embeds `mapbox_matrix.fetch_full_square_matrix_chunked`: `None`-initialize
the full N×N matrices, split both axes into blocks of size
`max(1, max_coords_per_request / 2)`, run one request per block pair and
stitch, then return the stitched matrices (materialized as row lists). -/
def fetch_full_square_matrix_chunked (token : String) (net : Net)
    (coords : List (ℚ × ℚ)) (max_coords_per_request : ℕ) :
    Except String MatrixResult × List NetReq :=
  let n := coords.length
  if n = 0 then (Except.ok ⟨[], []⟩, [])
  else
    let init : MatsFun := ⟨fun _ _ => none, fun _ _ => none⟩
    let block := max 1 (max_coords_per_request / 2)
    match _run_blocks token net coords max_coords_per_request init (blockTasks n block) with
    | (Except.error e, log) => (Except.error e, log)
    | (Except.ok st, log) =>
      (Except.ok ⟨(List.range n).map fun i => (List.range n).map fun j => st.durations i j,
                  (List.range n).map fun i => (List.range n).map fun j => st.distances i j⟩,
       log)

/-- A mocked provider returning per-cell values drawn from fixed ground-truth
functions of the two coordinates, independent of how the request space is
partitioned.  Absent `sources`/`destinations` default to all indices, as in
the Matrix API. -/
def consistentNet (gDur gDist : (ℚ × ℚ) → (ℚ × ℚ) → Option ℚ) : Net :=
  fun req =>
    let src := req.sources.getD (List.range req.coords.length)
    let dst := req.destinations.getD (List.range req.coords.length)
    Except.ok
      ⟨src.map fun s => dst.map fun d => gDur (req.coords.getD s (0, 0)) (req.coords.getD d (0, 0)),
       src.map fun s => dst.map fun d => gDist (req.coords.getD s (0, 0)) (req.coords.getD d (0, 0))⟩

/-! ## Profit VRP solver and result assembler
(`app/services/optimizer_mapbox.py`; `app/services/optimizer.py` shares the
same assembly loop over the haversine matrix) -/

/-- Embeds the `Stop` dataclass (identical in both optimizer modules). -/
structure Stop where
  location_id : String
  lat : ℚ
  lng : ℚ
  revenue : ℚ
  service_minutes : ℤ
deriving DecidableEq

/-- Embeds `RouteStopOut` / `OptimizeResultRouteStop`. -/
structure RouteStopOut where
  location_id : String
  order : ℕ
  revenue : ℚ
  segment_miles : ℚ
  segment_drive_minutes : ℤ
  service_minutes : ℤ
deriving DecidableEq

/-- Embeds `RouteOut` / `OptimizeResultRoute`. -/
structure RouteOut where
  vehicle_index : ℕ
  stops : List RouteStopOut
  total_miles : ℚ
  total_drive_minutes : ℤ
  total_service_minutes : ℤ
  total_revenue : ℚ
  total_cost : ℚ
  total_profit : ℚ
deriving DecidableEq

/-- Embeds `_meters_to_miles`: `m / 1609.344`. -/
def _meters_to_miles (m : ℚ) : ℚ := m / 1609.344

/-- Embeds `_sec_to_min_ceil`: `int(math.ceil(s / 60.0))`. -/
def _sec_to_min_ceil (s : ℚ) : ℤ := ⌈s / 60⌉

/-- Embeds `travel_cost_cb` of `solve_profit_vrp_with_mapbox`: absent Mapbox
distance (or an absent distances table) yields the large finite sentinel
`10 ** 9`; otherwise the cents value `int(round(miles * cpm * 100))`. -/
def travel_cost_cb (matrix : MatrixResult) (cpm : ℚ) (a b : ℕ) : ℤ :=
  match (if matrix.distances.isEmpty then none else mcell matrix.distances a b) with
  | none => 10 ^ 9
  | some dist_m => roundHalfEven (_meters_to_miles dist_m * cpm * 100)

/-- The `service_minutes` array `[0] + [int(s.service_minutes) for s in stops]`. -/
def service_minutes_arr (stops : List Stop) : List ℤ :=
  0 :: stops.map fun s => s.service_minutes

/-- Embeds `time_cb`: absent Mapbox duration yields `10 ** 9`; otherwise drive
minutes (ceiling) plus the destination's service minutes. -/
def time_cb (matrix : MatrixResult) (stops : List Stop) (a b : ℕ) : ℤ :=
  match (if matrix.durations.isEmpty then none else mcell matrix.durations a b) with
  | none => 10 ^ 9
  | some dur_s => _sec_to_min_ceil dur_s + (service_minutes_arr stops).getD b 0

/-- Out-of-range stop access placeholder (the solver only produces node
indices `1..len(stops)`, so this is never reached on real solutions). -/
def defaultStop : Stop := ⟨"", 0, 0, 0, 0⟩

/-- Accumulator of the per-vehicle walk in the result assembler. -/
structure WalkState where
  prev : ℕ
  order : ℕ
  total_miles : ℚ
  total_drive_minutes : ℤ
  total_service_minutes : ℤ
  total_revenue : ℚ
  out_stops : List RouteStopOut
deriving DecidableEq

/-- One iteration of the assembler's `while not routing.IsEnd(idx)` loop of
`solve_profit_vrp_with_mapbox`, at the node the iteration steps to: a stop
node appends a `RouteStopOut` (with `round(seg_miles, 3)`) and accumulates
the raw segment values; the depot node only moves `prev_node`.  An absent
matrix cell contributes `0.0` miles / `0` minutes. -/
def walkStep (stops : List Stop) (matrix : MatrixResult) (st : WalkState) (node : ℕ) :
    WalkState :=
  if node ≠ 0 then
    let stop := stops.getD (node - 1) defaultStop
    let seg_miles := match mcell matrix.distances st.prev node with
      | some d => _meters_to_miles d
      | none => 0
    let seg_drive := match mcell matrix.durations st.prev node with
      | some s => _sec_to_min_ceil s
      | none => 0
    { prev := node
      order := st.order + 1
      total_miles := st.total_miles + seg_miles
      total_drive_minutes := st.total_drive_minutes + seg_drive
      total_service_minutes := st.total_service_minutes + stop.service_minutes
      total_revenue := st.total_revenue + stop.revenue
      out_stops := st.out_stops ++ [⟨stop.location_id, st.order + 1, stop.revenue,
        roundPy3 seg_miles, seg_drive, stop.service_minutes⟩] }
  else
    { st with prev := node }

/-- The walk starts at the vehicle's start index, whose node is the depot 0. -/
def initWalk : WalkState := ⟨0, 0, 0, 0, 0, 0, []⟩

/-- The assembler's walk over one vehicle's node sequence (the `node` values
of successive loop iterations; a solver path ends with the end index, whose
node is the depot 0), followed by the `if prev_node != 0` final-leg block. -/
def routeTotals (stops : List Stop) (matrix : MatrixResult) (path : List ℕ) : WalkState :=
  let st := path.foldl (walkStep stops matrix) initWalk
  if st.prev ≠ 0 then
    let leg_miles := match mcell matrix.distances st.prev 0 with
      | some d => _meters_to_miles d
      | none => 0
    let leg_drive := match mcell matrix.durations st.prev 0 with
      | some s => _sec_to_min_ceil s
      | none => 0
    { st with
      total_miles := st.total_miles + leg_miles
      total_drive_minutes := st.total_drive_minutes + leg_drive }
  else st

/-- The exact (un-quantized) route cost of the assembler:
`Decimal(str(total_miles)) * cost_per_mile()
 + Decimal(str(drive + service)) * labor_cost_per_minute()`, where `cpm` is
the value of `cost_model.cost_per_mile()`. -/
def rawRouteCost (stops : List Stop) (matrix : MatrixResult) (cm : CostModel)
    (cpm : ℚ) (path : List ℕ) : ℚ :=
  let st := routeTotals stops matrix path
  st.total_miles * cpm
    + ((st.total_drive_minutes + st.total_service_minutes : ℤ) : ℚ) * cm.labor_cost_per_minute

/-- Embeds the per-vehicle body of the result assembly of
`solve_profit_vrp_with_mapbox` (lines 153-219): walk the vehicle's path,
then quantize revenue, cost and profit to cents and round total miles to
three decimals.  `cpm` is the value of `cost_model.cost_per_mile()`. -/
def assembleRoute (stops : List Stop) (matrix : MatrixResult) (cm : CostModel)
    (cpm : ℚ) (v : ℕ) (path : List ℕ) : RouteOut :=
  let st := routeTotals stops matrix path
  { vehicle_index := v
    stops := st.out_stops
    total_miles := roundPy3 st.total_miles
    total_drive_minutes := st.total_drive_minutes
    total_service_minutes := st.total_service_minutes
    total_revenue := quantizeCents st.total_revenue
    total_cost := quantizeCents (rawRouteCost stops matrix cm cpm path)
    total_profit := quantizeCents (st.total_revenue - rawRouteCost stops matrix cm cpm path) }

/-- Embeds `results.sort(key=lambda r: r.total_profit, reverse=True)`:
stable sort by descending total profit. -/
def sortRoutesByProfitDesc (rs : List RouteOut) : List RouteOut :=
  rs.mergeSort fun a b => decide (b.total_profit ≤ a.total_profit)

/-- The full result list assembled from a solver solution `f` (vehicle index
to node sequence): one `RouteOut` per vehicle `0..num_days-1`, sorted by
descending profit. -/
def assembledRoutes (stops : List Stop) (matrix : MatrixResult) (cm : CostModel)
    (cpm : ℚ) (num_days : ℕ) (f : ℕ → List ℕ) : List RouteOut :=
  sortRoutesByProfitDesc
    ((List.range num_days).map fun v => assembleRoute stops matrix cm cpm v (f v))

/-- Embeds `solve_profit_vrp_with_mapbox` downstream of the matrix fetch and
the external OR-Tools search: `num_days < 1` raises (`none`), a zero-mpg cost
model raises at `float(cost_model.cost_per_mile())` (`none`), a solver
failure (`if not solution`) returns the empty route list, and a solution is
assembled per vehicle and sorted by descending profit.
`solve_profit_vrp` in `optimizer.py` performs the identical checks and
assembly over the haversine-derived matrix. -/
def solve_profit_vrp_with_mapbox (stops : List Stop) (cm : CostModel) (num_days : ℕ)
    (matrix : MatrixResult) (sol : Option (ℕ → List ℕ)) : Option (List RouteOut) :=
  if num_days < 1 then none
  else
    match cm.cost_per_mile with
    | none => none
    | some cpm =>
      match sol with
      | none => some []
      | some f => some (assembledRoutes stops matrix cm cpm num_days f)

/-! ## Concrete instances used by the evaluation theorems -/

/-- A provider whose every request fails (network unavailable). -/
def netErr : Net := fun _ => Except.error "network unavailable"

/-- Ground truth for the mocked consistent provider: every pair reachable in
zero seconds / zero meters. -/
def gZero : (ℚ × ℚ) → (ℚ × ℚ) → Option ℚ := fun _ _ => some 0

/-- A provider that fails exactly one block request of the chunked fetch over
`[(0,0), (1,1)]` with `max_coords_per_request = 2` — the origin-block `{0}` ×
destination-block `{1}` call, whose union coordinate list is
`[(0,0), (1,1)]` — and answers every other request consistently. -/
def netOneBlockFail : Net := fun req =>
  if req.coords = [((0 : ℚ), (0 : ℚ)), ((1 : ℚ), (1 : ℚ))] then
    Except.error "simulated block failure"
  else consistentNet gZero gZero req

/-- A single stop with revenue one cent and no service time. -/
def stopsC1 : List Stop := [⟨"s1", 0, 0, 1 / 100, 0⟩]

/-- Depot-stop matrix whose depot→stop distance is 8.04672 meters
(= 1609.344 / 200), i.e. exactly 0.005 miles, with zero durations. -/
def matrixC1 : MatrixResult :=
  ⟨[[some 0, some 0], [some 0, some 0]],
   [[some 0, some (25146 / 3125)], [some (25146 / 3125), some 0]]⟩

/-- Cost model with cost-per-mile exactly 1 $/mile and no labor cost. -/
def cmC1 : CostModel := ⟨1, 1, 0, 0, 0, 25⟩

/-- Solver solution: the one vehicle visits the stop and returns (the end
index's node is the depot 0). -/
def fC1 : ℕ → List ℕ := fun _ => [1, 0]

/-- The single assembled route of the `C1` evaluation run. -/
def rC1 : RouteOut := assembleRoute stopsC1 matrixC1 cmC1 1 0 [1, 0]

/-- All-zero 2×2 matrices (depot + one stop, everything reachable at cost 0). -/
def matrixW1 : MatrixResult :=
  ⟨[[some 0, some 0], [some 0, some 0]], [[some 0, some 0], [some 0, some 0]]⟩

/-- A stop with whole-dollar revenue and ten service minutes. -/
def stopsW1 : List Stop := [⟨"a", 0, 0, 1, 10⟩]

/-- Cost model: $3/gal at 1 mpg, $60/h labor, so cpm = 3 and lpm = 1. -/
def cmW1 : CostModel := ⟨3, 1, 0, 0, 60, 25⟩

/-! ## Rounding lemmas -/

theorem roundHalfEven_intCast (k : ℤ) : roundHalfEven (k : ℚ) = k := by
  unfold roundHalfEven
  rw [Int.fract_intCast, Int.floor_intCast]
  norm_num

theorem roundHalfEven_int_sub (k : ℤ) (y : ℚ) (hy : Int.fract y ≠ 1 / 2) :
    roundHalfEven ((k : ℚ) - y) = k - roundHalfEven y := by
  by_cases h0 : Int.fract y = 0
  · have hyint : y = (⌊y⌋ : ℚ) := by
      have := Int.fract_add_floor y
      rw [h0] at this
      linarith
    rw [hyint]
    have : (k : ℚ) - (⌊y⌋ : ℚ) = ((k - ⌊y⌋ : ℤ) : ℚ) := by push_cast; ring
    rw [this, roundHalfEven_intCast, roundHalfEven_intCast]
  · have hfl : 0 ≤ Int.fract y := Int.fract_nonneg y
    have hfu : Int.fract y < 1 := Int.fract_lt_one y
    have h0' : 0 < Int.fract y := lt_of_le_of_ne hfl (Ne.symm h0)
    have hdecomp : (k : ℚ) - y = ((k - ⌊y⌋ - 1 : ℤ) : ℚ) + (1 - Int.fract y) := by
      have := Int.fract_add_floor y
      push_cast
      linarith
    have hfloor : ⌊(k : ℚ) - y⌋ = k - ⌊y⌋ - 1 := by
      rw [hdecomp, Int.floor_int_add]
      have h1 : ⌊(1 : ℚ) - Int.fract y⌋ = 0 := by
        rw [Int.floor_eq_zero_iff]
        constructor
        · simp only [Set.mem_Ico] at *
          linarith
        · linarith
      rw [h1]
      omega
    have hfract : Int.fract ((k : ℚ) - y) = 1 - Int.fract y := by
      have := Int.fract_add_floor ((k : ℚ) - y)
      rw [hfloor] at this
      have h2 := hdecomp
      push_cast at this h2 ⊢
      linarith
    unfold roundHalfEven
    rw [hfract, hfloor]
    rcases lt_trichotomy (Int.fract y) (1 / 2) with hlt | heq | hgt
    · rw [if_neg (by linarith), if_pos (by linarith), if_pos hlt]
      ring
    · exact absurd heq hy
    · rw [if_pos (by linarith), if_neg (by linarith), if_pos hgt]
      ring

theorem den_one_add {a b : ℚ} (ha : a.den = 1) (hb : b.den = 1) : (a + b).den = 1 := by
  have h1 : a = (a.num : ℚ) := ((Rat.den_eq_one_iff a).mp ha).symm
  have h2 : b = (b.num : ℚ) := ((Rat.den_eq_one_iff b).mp hb).symm
  rw [h1, h2]
  have : (a.num : ℚ) + (b.num : ℚ) = ((a.num + b.num : ℤ) : ℚ) := by push_cast; ring
  rw [this, Rat.den_intCast]

theorem roundHalfEven_half : roundHalfEven (1 / 2 : ℚ) = 0 := by
  have hf : ⌊(1 / 2 : ℚ)⌋ = 0 := by
    rw [Int.floor_eq_zero_iff]
    constructor <;> norm_num
  unfold roundHalfEven
  rw [Int.fract, hf]
  norm_num

theorem roundHalfEven_one : roundHalfEven (1 : ℚ) = 1 := by
  have := roundHalfEven_intCast 1
  simpa using this

/-! ## Result-assembler lemmas -/

theorem walkStep_total_revenue (stops : List Stop) (matrix : MatrixResult)
    (st : WalkState) (node : ℕ) :
    (walkStep stops matrix st node).total_revenue
      = if node = 0 then st.total_revenue
        else st.total_revenue + (stops.getD (node - 1) defaultStop).revenue := by
  unfold walkStep
  by_cases h : node = 0 <;> simp [h]

theorem walkStep_out_stops_ids (stops : List Stop) (matrix : MatrixResult)
    (st : WalkState) (node : ℕ) :
    (walkStep stops matrix st node).out_stops.map RouteStopOut.location_id
      = if node = 0 then st.out_stops.map RouteStopOut.location_id
        else st.out_stops.map RouteStopOut.location_id
          ++ [(stops.getD (node - 1) defaultStop).location_id] := by
  unfold walkStep
  by_cases h : node = 0 <;> simp [h]

theorem foldl_total_revenue_den_one (stops : List Stop) (matrix : MatrixResult)
    (path : List ℕ) (st : WalkState)
    (hrev : ∀ s ∈ stops, (s.revenue * 100).den = 1)
    (hst : (st.total_revenue * 100).den = 1) :
    ((path.foldl (walkStep stops matrix) st).total_revenue * 100).den = 1 := by
  induction path generalizing st with
  | nil => exact hst
  | cons node rest ih =>
    refine ih _ ?_
    rw [walkStep_total_revenue]
    by_cases h : node = 0
    · simpa [h] using hst
    · rw [if_neg h, add_mul]
      refine den_one_add hst ?_
      by_cases hlt : node - 1 < stops.length
      · rw [List.getD_eq_getElem stops defaultStop hlt]
        exact hrev _ (List.getElem_mem hlt)
      · rw [List.getD_eq_default stops defaultStop (Nat.le_of_not_lt hlt)]
        simp [defaultStop]

theorem routeTotals_total_revenue (stops : List Stop) (matrix : MatrixResult)
    (path : List ℕ) :
    (routeTotals stops matrix path).total_revenue
      = (path.foldl (walkStep stops matrix) initWalk).total_revenue := by
  simp only [routeTotals]
  split <;> rfl

theorem routeTotals_out_stops (stops : List Stop) (matrix : MatrixResult)
    (path : List ℕ) :
    (routeTotals stops matrix path).out_stops
      = (path.foldl (walkStep stops matrix) initWalk).out_stops := by
  simp only [routeTotals]
  split <;> rfl

theorem routeTotals_revenue_den_one (stops : List Stop) (matrix : MatrixResult)
    (path : List ℕ) (hrev : ∀ s ∈ stops, (s.revenue * 100).den = 1) :
    ((routeTotals stops matrix path).total_revenue * 100).den = 1 := by
  rw [routeTotals_total_revenue]
  exact foldl_total_revenue_den_one stops matrix path initWalk hrev (by simp [initWalk])

/-- C1 (amended): for every assembled route whose stop revenues are whole
numbers of cents, and whose exact pre-rounding total cost is not an exact
half-cent tie, the reported aggregate fields satisfy
`total_profit = total_revenue - total_cost` at cent precision; and (always,
by construction) `total_cost` is the cent-quantization of
(accumulated route distance × `cost_per_mile()`) +
((total drive + service minutes) × `labor_cost_per_minute()`), computed with
the same `CostModel` functions used to formulate the objective.  At an exact
half-cent tie, banker's rounding of cost and of profit can disagree by one
cent (see `route_profit_identity_fails_at_half_cent_tie`). -/
theorem route_profit_revenue_cost_consistency
    (stops : List Stop) (matrix : MatrixResult) (cm : CostModel) (cpm : ℚ)
    (v : ℕ) (path : List ℕ)
    (_hcpm : cm.cost_per_mile = some cpm)
    (hrev : ∀ s ∈ stops, (s.revenue * 100).den = 1)
    (htie : Int.fract (rawRouteCost stops matrix cm cpm path * 100) ≠ 1 / 2) :
    (assembleRoute stops matrix cm cpm v path).total_profit
      = (assembleRoute stops matrix cm cpm v path).total_revenue
        - (assembleRoute stops matrix cm cpm v path).total_cost
    ∧ (assembleRoute stops matrix cm cpm v path).total_cost
      = quantizeCents ((routeTotals stops matrix path).total_miles * cpm
          + (((routeTotals stops matrix path).total_drive_minutes
              + (routeTotals stops matrix path).total_service_minutes : ℤ) : ℚ)
            * cm.labor_cost_per_minute) := by
  constructor
  · have hd : (((routeTotals stops matrix path).total_revenue) * 100).den = 1 :=
      routeTotals_revenue_den_one stops matrix path hrev
    have hk : ((((routeTotals stops matrix path).total_revenue) * 100).num : ℚ)
        = ((routeTotals stops matrix path).total_revenue) * 100 :=
      (Rat.den_eq_one_iff _).mp hd
    show quantizeCents ((routeTotals stops matrix path).total_revenue
          - rawRouteCost stops matrix cm cpm path)
      = quantizeCents ((routeTotals stops matrix path).total_revenue)
        - quantizeCents (rawRouteCost stops matrix cm cpm path)
    unfold quantizeCents
    rw [sub_mul, ← hk, roundHalfEven_int_sub _ _ htie, roundHalfEven_intCast]
    push_cast
    ring
  · rfl

/-- Witness for the amended C1 theorem: a route visiting one $1.00 stop over a
zero-distance matrix with a $60/h labor model, where every hypothesis holds
and the profit identity is exact. -/
theorem route_profit_revenue_cost_consistency_witness :
    cmW1.cost_per_mile = some 3
    ∧ (∀ s ∈ stopsW1, (s.revenue * 100).den = 1)
    ∧ Int.fract (rawRouteCost stopsW1 matrixW1 cmW1 3 [1, 0] * 100) ≠ 1 / 2
    ∧ (assembleRoute stopsW1 matrixW1 cmW1 3 0 [1, 0]).total_profit
        = (assembleRoute stopsW1 matrixW1 cmW1 3 0 [1, 0]).total_revenue
          - (assembleRoute stopsW1 matrixW1 cmW1 3 0 [1, 0]).total_cost := by
  have h1 : cmW1.cost_per_mile = some 3 := by
    simp [cmW1, CostModel.cost_per_mile]
  have h2 : ∀ s ∈ stopsW1, (s.revenue * 100).den = 1 := by
    intro s hs
    simp only [stopsW1, List.mem_singleton] at hs
    subst hs
    simp
  have h3 : Int.fract (rawRouteCost stopsW1 matrixW1 cmW1 3 [1, 0] * 100) ≠ 1 / 2 := by
    have hraw : rawRouteCost stopsW1 matrixW1 cmW1 3 [1, 0] = 10 := by
      simp [rawRouteCost, routeTotals, walkStep, initWalk, stopsW1, matrixW1, mcell,
        _meters_to_miles, _sec_to_min_ceil, CostModel.labor_cost_per_minute, cmW1]
    rw [hraw]
    norm_num
  exact ⟨h1, h2, h3,
    (route_profit_revenue_cost_consistency stopsW1 matrixW1 cmW1 3 0 [1, 0] h1 h2 h3).1⟩

/-- C1 counterexample: a returned route that accumulates exactly 0.005 miles
(8.04672 m at $1/mile) with one-cent revenue and no labor cost.  The exact
cost $0.005 and the exact profit $0.005 both round half-even to $0.00, but
revenue reports $0.01, so the reported fields violate
`total_profit = total_revenue - total_cost`. -/
theorem route_profit_identity_fails_at_half_cent_tie :
    solve_profit_vrp_with_mapbox stopsC1 cmC1 1 matrixC1 (some fC1) = some [rC1]
    ∧ rC1.total_profit ≠ rC1.total_revenue - rC1.total_cost := by
  have hcpm : cmC1.cost_per_mile = some 1 := by
    simp [cmC1, CostModel.cost_per_mile]
  constructor
  · simp only [solve_profit_vrp_with_mapbox, hcpm]
    norm_num
    simp [assembledRoutes, sortRoutesByProfitDesc, List.range_succ, rC1, fC1]
  · have hrev : (routeTotals stopsC1 matrixC1 [1, 0]).total_revenue = 1 / 100 := by
      simp [routeTotals, walkStep, initWalk, stopsC1, matrixC1, mcell]
    have hraw : rawRouteCost stopsC1 matrixC1 cmC1 1 [1, 0] = 1 / 200 := by
      simp [rawRouteCost, routeTotals, walkStep, initWalk, stopsC1, matrixC1, mcell,
        _meters_to_miles, _sec_to_min_ceil, CostModel.labor_cost_per_minute, cmC1]
      norm_num
    have hprofit : rC1.total_profit = 0 := by
      show quantizeCents ((routeTotals stopsC1 matrixC1 [1, 0]).total_revenue
        - rawRouteCost stopsC1 matrixC1 cmC1 1 [1, 0]) = 0
      rw [hrev, hraw]
      unfold quantizeCents
      rw [show (1 / 100 - 1 / 200 : ℚ) * 100 = 1 / 2 by norm_num, roundHalfEven_half]
      norm_num
    have hcost : rC1.total_cost = 0 := by
      show quantizeCents (rawRouteCost stopsC1 matrixC1 cmC1 1 [1, 0]) = 0
      rw [hraw]
      unfold quantizeCents
      rw [show (1 / 200 : ℚ) * 100 = 1 / 2 by norm_num, roundHalfEven_half]
      norm_num
    have hrevq : rC1.total_revenue = 1 / 100 := by
      show quantizeCents ((routeTotals stopsC1 matrixC1 [1, 0]).total_revenue) = 1 / 100
      rw [hrev]
      unfold quantizeCents
      rw [show (1 / 100 : ℚ) * 100 = 1 by norm_num, roundHalfEven_one]
      norm_num
    rw [hprofit, hcost, hrevq]
    norm_num

/-- C4 (code bug evaluation): `CostModel` is a plain frozen dataclass — a
model with fuel efficiency `mpg = 0` is constructible with no
construction-time failure and no fallback to a default efficiency, and its
`cost_per_mile()` derivation raises `DivisionByZero` (`none`); with any
nonzero efficiency the derivation succeeds.  This contradicts the spec, which
requires construction-time validation so that division by zero is never
raised to the caller. -/
theorem cost_per_mile_raises_on_zero_mpg :
    (CostModel.mk 3 0 (1 / 10) 0 30 25).cost_per_mile = none
    ∧ ((CostModel.mk 3 1 (1 / 10) 0 30 25).cost_per_mile).isSome = true :=
  ⟨rfl, rfl⟩

/-- C3: an ordered node pair whose matrix entry is absent (a null cell, or a
wholly absent table) makes both transit callbacks return the large finite
sentinel `10 ^ 9` instead of raising, so the solver treats the pair as
effectively forbidden. -/
theorem unreachable_pair_gets_large_finite_cost
    (matrix : MatrixResult) (stops : List Stop) (cpm : ℚ) (a b : ℕ)
    (hd : mcell matrix.distances a b = none)
    (hu : mcell matrix.durations a b = none) :
    travel_cost_cb matrix cpm a b = 10 ^ 9 ∧ time_cb matrix stops a b = 10 ^ 9 := by
  constructor
  · unfold travel_cost_cb
    by_cases h : matrix.distances.isEmpty <;> simp [h, hd]
  · unfold time_cb
    by_cases h : matrix.durations.isEmpty <;> simp [h, hu]

/-- Witness for C3: the depot-stop pair `(0, 1)` with explicit null cells. -/
theorem unreachable_pair_gets_large_finite_cost_witness :
    mcell [[some 0, none], [some 0, some 0]] 0 1 = none
    ∧ travel_cost_cb ⟨[[some 0, none], [some 0, some 0]],
        [[some 0, none], [some 0, some 0]]⟩ 1 0 1 = 10 ^ 9 := by
  refine ⟨rfl, ?_⟩
  exact (unreachable_pair_gets_large_finite_cost
    ⟨[[some 0, none], [some 0, some 0]], [[some 0, none], [some 0, some 0]]⟩
    [] 1 0 1 rfl rfl).1

/-! ## Configuration-error lemmas (C6) -/

/-- C6 counterexample: with the access token missing, the chunked fetch over
the empty coordinate list returns the empty matrix silently — the `n == 0`
early return runs before any token check, contradicting the claim that a
missing token raises for every coordinate list. -/
theorem chunked_empty_coords_skips_token_check :
    fetch_full_square_matrix_chunked "" netErr [] 25 = (Except.ok ⟨[], []⟩, []) := rfl

theorem do_block_missing_token (net : Net) (coords : List (ℚ × ℚ)) (K : ℕ)
    (st : MatsFun) (blk : ℕ × ℕ × ℕ × ℕ) :
    ∃ e, _do_block "" net coords K st blk = (Except.error e, []) := by
  unfold _do_block
  by_cases hg : K < ((coords.drop blk.1).take (blk.2.1 - blk.1)
      ++ (coords.drop blk.2.2.1).take (blk.2.2.2 - blk.2.2.1)).length
  · exact ⟨"Chunk too large", by rw [if_pos hg]⟩
  · refine ⟨"MAPBOX_ACCESS_TOKEN is missing", ?_⟩
    rw [if_neg hg]
    rfl

/-- C6 (amended): when the access token is missing, `fetch_matrix` raises the
explicit configuration error before issuing any network request for every
coordinate list, and `fetch_full_square_matrix_chunked` does so for every
non-empty coordinate list; for the empty coordinate list the chunked fetch
instead returns the empty 0×0 matrix without consulting the token
(see `chunked_empty_coords_skips_token_check`). -/
theorem missing_token_fails_before_network (net : Net) (coords : List (ℚ × ℚ))
    (sources destinations : Option (List ℕ)) (K : ℕ) (h : coords ≠ []) :
    fetch_matrix "" net coords sources destinations
      = (Except.error "MAPBOX_ACCESS_TOKEN is missing", [])
    ∧ ∃ e, fetch_full_square_matrix_chunked "" net coords K = (Except.error e, []) := by
  constructor
  · rfl
  · have hn : ¬ coords.length = 0 := by
      simpa [List.length_eq_zero] using h
    have hstarts : chunkStarts coords.length (max 1 (K / 2)) ≠ [] := by
      unfold chunkStarts
      simp only [ne_eq, List.map_eq_nil_iff, List.range_eq_nil]
      have hb : 0 < max 1 (K / 2) := by omega
      have h1 : 1 ≤ (coords.length + max 1 (K / 2) - 1) / max 1 (K / 2) := by
        rw [Nat.le_div_iff_mul_le hb]
        omega
      omega
    obtain ⟨s, stail, hs⟩ := List.exists_cons_of_ne_nil hstarts
    have htasks : ∃ t rest,
        blockTasks coords.length (max 1 (K / 2)) = t :: rest := by
      unfold blockTasks
      rw [hs]
      exact ⟨_, _, rfl⟩
    obtain ⟨t, rest, ht⟩ := htasks
    obtain ⟨e, he⟩ := do_block_missing_token net coords K
      ⟨fun _ _ => none, fun _ _ => none⟩ t
    refine ⟨e, ?_⟩
    unfold fetch_full_square_matrix_chunked
    rw [if_neg hn]
    dsimp only
    rw [ht]
    simp only [_run_blocks, he]

/-- Witness for the amended C6 theorem: a one-coordinate list. -/
theorem missing_token_fails_before_network_witness :
    (([((0 : ℚ), (0 : ℚ))] : List (ℚ × ℚ)) ≠ [])
    ∧ fetch_matrix "" netErr [((0 : ℚ), (0 : ℚ))] none none
        = (Except.error "MAPBOX_ACCESS_TOKEN is missing", []) :=
  ⟨by simp,
   (missing_token_fails_before_network netErr [((0 : ℚ), (0 : ℚ))] none none 25 (by simp)).1⟩

/-- C5 (code bug evaluation): when a single block request of the chunked fetch
fails — here the origin-block `{0}` × destination-block `{1}` call over
`[(0,0), (1,1)]` with `max_coords_per_request = 2` — the raised
`MapboxMatrixError` propagates out of `asyncio.gather` and aborts the whole
matrix build with an error, instead of completing with only that block's
cells left null as the spec requires. -/
theorem chunked_aborts_on_single_block_failure :
    (fetch_full_square_matrix_chunked "tok" netOneBlockFail [(0, 0), (1, 1)] 2).1
      = Except.error "simulated block failure" := by
  rfl

/-! ## Geometric-estimator lemmas (C9) -/

theorem haversine_miles_symm (a b : ℝ × ℝ) : haversine_miles a b = haversine_miles b a := by
  unfold haversine_miles
  dsimp only
  have key : ∀ x y : ℝ,
      Real.sin (radians (x - y) / 2) ^ 2 = Real.sin (radians (y - x) / 2) ^ 2 := by
    intro x y
    rw [show radians (x - y) / 2 = -(radians (y - x) / 2) by unfold radians; ring,
      Real.sin_neg]
    ring
  rw [key b.1 a.1, key b.2 a.2,
    mul_comm (Real.cos (radians a.1)) (Real.cos (radians b.1))]

theorem haversine_miles_self (a : ℝ × ℝ) : haversine_miles a a = 0 := by
  simp [haversine_miles, radians, pyAtan2]

theorem getD_map_range {α : Type} (n : ℕ) (f : ℕ → α) (d : α) (i : ℕ) (h : i < n) :
    ((List.range n).map f).getD i d = f i := by
  rw [List.getD_eq_getElem?_getD, List.getElem?_map, List.getElem?_range h]
  rfl

theorem cellZ_build_distance_matrix (coords : List (ℝ × ℝ)) (i j : ℕ)
    (hi : i < coords.length) (hj : j < coords.length) :
    cellZ (build_distance_matrix_miles coords) i j
      = if i = j then 0
        else pyInt (haversine_miles (coords.getD i (0, 0)) (coords.getD j (0, 0)) * 1000) := by
  unfold cellZ build_distance_matrix_miles
  rw [getD_map_range coords.length _ [] i hi, getD_map_range coords.length _ 0 j hj]

/-- C9: the haversine estimator is symmetric with zero self-distance, and
consequently the fixed-point geometric distance matrix is symmetric with a
zero diagonal. -/
theorem haversine_symm_and_matrix_symm (a b : ℝ × ℝ) (coords : List (ℝ × ℝ)) (i j : ℕ)
    (hi : i < coords.length) (hj : j < coords.length) :
    haversine_miles a b = haversine_miles b a
    ∧ haversine_miles a a = 0
    ∧ cellZ (build_distance_matrix_miles coords) i j
        = cellZ (build_distance_matrix_miles coords) j i
    ∧ cellZ (build_distance_matrix_miles coords) i i = 0 := by
  refine ⟨haversine_miles_symm a b, haversine_miles_self a, ?_, ?_⟩
  · rw [cellZ_build_distance_matrix coords i j hi hj,
      cellZ_build_distance_matrix coords j i hj hi]
    by_cases hij : i = j
    · simp [hij]
    · rw [if_neg hij, if_neg (Ne.symm hij),
        haversine_miles_symm (coords.getD i (0, 0)) (coords.getD j (0, 0))]
  · rw [cellZ_build_distance_matrix coords i i hi hi]
    simp

/-- Witness for C9 at concrete coordinates and indices. -/
theorem haversine_symm_and_matrix_symm_witness :
    (0 < ([((0 : ℝ), (0 : ℝ)), ((1 : ℝ), (1 : ℝ))] : List (ℝ × ℝ)).length
      ∧ 1 < ([((0 : ℝ), (0 : ℝ)), ((1 : ℝ), (1 : ℝ))] : List (ℝ × ℝ)).length)
    ∧ (haversine_miles ((0 : ℝ), (0 : ℝ)) ((1 : ℝ), (1 : ℝ))
        = haversine_miles ((1 : ℝ), (1 : ℝ)) ((0 : ℝ), (0 : ℝ))
      ∧ haversine_miles ((0 : ℝ), (0 : ℝ)) ((0 : ℝ), (0 : ℝ)) = 0
      ∧ cellZ (build_distance_matrix_miles [((0 : ℝ), (0 : ℝ)), ((1 : ℝ), (1 : ℝ))]) 0 1
          = cellZ (build_distance_matrix_miles [((0 : ℝ), (0 : ℝ)), ((1 : ℝ), (1 : ℝ))]) 1 0
      ∧ cellZ (build_distance_matrix_miles [((0 : ℝ), (0 : ℝ)), ((1 : ℝ), (1 : ℝ))]) 0 0 = 0) :=
  ⟨⟨by simp, by simp⟩,
   haversine_symm_and_matrix_symm ((0 : ℝ), (0 : ℝ)) ((1 : ℝ), (1 : ℝ))
     [((0 : ℝ), (0 : ℝ)), ((1 : ℝ), (1 : ℝ))] 0 1 (by simp) (by simp)⟩

/-! ## Route-list structure lemmas (C7, C10) -/

theorem foldl_out_stops_ids (stops : List Stop) (matrix : MatrixResult)
    (path : List ℕ) (st : WalkState) :
    ((path.foldl (walkStep stops matrix) st).out_stops).map RouteStopOut.location_id
      = st.out_stops.map RouteStopOut.location_id
        ++ (path.filter (fun x => x ≠ 0)).map
            (fun x => (stops.getD (x - 1) defaultStop).location_id) := by
  induction path generalizing st with
  | nil => simp
  | cons node rest ih =>
    rw [List.foldl_cons, ih, walkStep_out_stops_ids]
    by_cases h : node = 0
    · simp [h]
    · simp [h]

theorem assembleRoute_stop_ids (stops : List Stop) (matrix : MatrixResult)
    (cm : CostModel) (cpm : ℚ) (v : ℕ) (path : List ℕ) :
    (assembleRoute stops matrix cm cpm v path).stops.map RouteStopOut.location_id
      = (path.filter (fun x => x ≠ 0)).map
          (fun x => (stops.getD (x - 1) defaultStop).location_id) := by
  show ((routeTotals stops matrix path).out_stops).map RouteStopOut.location_id = _
  rw [routeTotals_out_stops, foldl_out_stops_ids]
  simp [initWalk]

theorem assembledRoutes_ids_perm (stops : List Stop) (matrix : MatrixResult)
    (cm : CostModel) (cpm : ℚ) (num_days : ℕ) (f : ℕ → List ℕ) :
    ((assembledRoutes stops matrix cm cpm num_days f).flatMap
        fun r => r.stops.map RouteStopOut.location_id).Perm
      ((((List.range num_days).flatMap fun v => (f v).filter (fun x => x ≠ 0))).map
        (fun x => (stops.getD (x - 1) defaultStop).location_id)) := by
  have hp : (assembledRoutes stops matrix cm cpm num_days f).Perm
      ((List.range num_days).map fun v => assembleRoute stops matrix cm cpm v (f v)) :=
    List.mergeSort_perm _ _
  refine (List.Perm.flatMap_right _ hp).trans ?_
  rw [List.flatMap_map, List.map_flatMap]
  simp only [assembleRoute_stop_ids]
  exact List.Perm.refl _

/-- C7: given a valid solver solution (every visited node indexes an input
stop and no node is assigned to two vehicles or visited twice) and distinct
input location ids, the returned route list contains no duplicate stop
location id — within a route or across routes — and every id drawn from the
input stop list. -/
theorem route_stop_ids_no_duplicates
    (stops : List Stop) (matrix : MatrixResult) (cm : CostModel) (cpm : ℚ)
    (num_days : ℕ) (f : ℕ → List ℕ)
    (hids : (stops.map Stop.location_id).Nodup)
    (hle : ∀ v, v < num_days → ∀ x ∈ f v, x ≤ stops.length)
    (hnd : ((List.range num_days).flatMap fun v => (f v).filter (fun x => x ≠ 0)).Nodup) :
    ((assembledRoutes stops matrix cm cpm num_days f).flatMap
        fun r => r.stops.map RouteStopOut.location_id).Nodup
    ∧ ∀ lid ∈ (assembledRoutes stops matrix cm cpm num_days f).flatMap
          fun r => r.stops.map RouteStopOut.location_id,
        lid ∈ stops.map Stop.location_id := by
  have hperm := assembledRoutes_ids_perm stops matrix cm cpm num_days f
  have hmem_nodes : ∀ x ∈ (List.range num_days).flatMap
      fun v => (f v).filter (fun x => x ≠ 0), 1 ≤ x ∧ x ≤ stops.length := by
    intro x hx
    rw [List.mem_flatMap] at hx
    obtain ⟨v, hv, hxf⟩ := hx
    rw [List.mem_filter] at hxf
    have hx0 : x ≠ 0 := by simpa using hxf.2
    have hxle := hle v (List.mem_range.mp hv) x hxf.1
    omega
  have hmapped : (((List.range num_days).flatMap fun v => (f v).filter (fun x => x ≠ 0)).map
      (fun x => (stops.getD (x - 1) defaultStop).location_id)).Nodup := by
    refine List.Nodup.map_on ?_ hnd
    intro x hx y hy hxy
    obtain ⟨hx1, hx2⟩ := hmem_nodes x hx
    obtain ⟨hy1, hy2⟩ := hmem_nodes y hy
    have hxl : x - 1 < stops.length := by omega
    have hyl : y - 1 < stops.length := by omega
    rw [List.getD_eq_getElem stops defaultStop hxl,
      List.getD_eq_getElem stops defaultStop hyl] at hxy
    have hxl' : x - 1 < (stops.map Stop.location_id).length := by
      rw [List.length_map]; omega
    have hyl' : y - 1 < (stops.map Stop.location_id).length := by
      rw [List.length_map]; omega
    have : (stops.map Stop.location_id)[x - 1] = (stops.map Stop.location_id)[y - 1] := by
      rw [List.getElem_map, List.getElem_map]
      exact hxy
    have := (hids.getElem_inj_iff).mp this
    omega
  constructor
  · exact hmapped.perm hperm.symm
  · intro lid hlid
    have hlid' := hperm.mem_iff.mp hlid
    rw [List.mem_map] at hlid'
    obtain ⟨x, hx, hxeq⟩ := hlid'
    obtain ⟨hx1, hx2⟩ := hmem_nodes x hx
    have hxl : x - 1 < stops.length := by omega
    rw [List.getD_eq_getElem stops defaultStop hxl] at hxeq
    rw [← hxeq]
    rw [List.mem_map]
    exact ⟨stops[x - 1], List.getElem_mem hxl, rfl⟩

/-- Witness for C7: one day, one stop, the solver visiting it once. -/
theorem route_stop_ids_no_duplicates_witness :
    ((stopsW1.map Stop.location_id).Nodup
      ∧ (∀ v, v < 1 → ∀ x ∈ [1, 0], x ≤ stopsW1.length)
      ∧ (((List.range 1).flatMap
          fun _ => ([1, 0].filter (fun x => x ≠ 0))).Nodup))
    ∧ ((assembledRoutes stopsW1 matrixW1 cmW1 3 1 fun _ => [1, 0]).flatMap
        fun r => r.stops.map RouteStopOut.location_id).Nodup :=
  ⟨⟨by decide, by decide, by decide⟩,
   (route_stop_ids_no_duplicates stopsW1 matrixW1 cmW1 3 1 (fun _ => [1, 0])
     (by decide) (by decide) (by decide)).1⟩

/-- C10: whenever the external solver returns a solution, the solver wrapper
returns exactly `num_days` routes whose vehicle indices are a permutation of
`0..num_days-1` (so the result is nonempty for `num_days ≥ 1`), and the empty
route list is returned exactly when the solver reports no feasible
solution. -/
theorem solver_solution_route_count (stops : List Stop) (cm : CostModel)
    (num_days : ℕ) (matrix : MatrixResult) (cpm : ℚ) (f : ℕ → List ℕ)
    (hnd : 1 ≤ num_days) (hcpm : cm.cost_per_mile = some cpm) :
    solve_profit_vrp_with_mapbox stops cm num_days matrix none = some []
    ∧ ∃ routes,
        solve_profit_vrp_with_mapbox stops cm num_days matrix (some f) = some routes
        ∧ routes.length = num_days
        ∧ (routes.map RouteOut.vehicle_index).Perm (List.range num_days)
        ∧ routes ≠ [] := by
  have hlt : ¬ num_days < 1 := by omega
  constructor
  · unfold solve_profit_vrp_with_mapbox
    rw [if_neg hlt, hcpm]
  · refine ⟨assembledRoutes stops matrix cm cpm num_days f, ?_, ?_, ?_, ?_⟩
    · unfold solve_profit_vrp_with_mapbox
      rw [if_neg hlt, hcpm]
    · unfold assembledRoutes sortRoutesByProfitDesc
      rw [List.length_mergeSort, List.length_map, List.length_range]
    · have hp : (assembledRoutes stops matrix cm cpm num_days f).Perm
          ((List.range num_days).map fun v => assembleRoute stops matrix cm cpm v (f v)) :=
        List.mergeSort_perm _ _
      refine (hp.map RouteOut.vehicle_index).trans ?_
      rw [List.map_map]
      have heq : (List.range num_days).map
          (RouteOut.vehicle_index ∘ fun v => assembleRoute stops matrix cm cpm v (f v))
          = List.range num_days :=
        List.map_id'' (fun _ => rfl) _
      rw [heq]
    · have hl : (assembledRoutes stops matrix cm cpm num_days f).length = num_days := by
        unfold assembledRoutes sortRoutesByProfitDesc
        rw [List.length_mergeSort, List.length_map, List.length_range]
      intro hnil
      rw [hnil] at hl
      simp at hl
      omega

/-- Witness for C10: one day, one stop, with and without a solver solution. -/
theorem solver_solution_route_count_witness :
    (1 ≤ 1 ∧ cmW1.cost_per_mile = some 3)
    ∧ solve_profit_vrp_with_mapbox stopsW1 cmW1 1 matrixW1 none = some [] :=
  ⟨⟨by decide, by simp [cmW1, CostModel.cost_per_mile]⟩,
   (solver_solution_route_count stopsW1 cmW1 1 matrixW1 3 (fun _ => [1, 0])
     (by decide) (by simp [cmW1, CostModel.cost_per_mile])).1⟩

/-! ## Chunked-fetch stitching lemmas (C2) -/

theorem updFun_same (m : ℕ → ℕ → Option ℚ) (i j : ℕ) (v : Option ℚ) :
    updFun m i j v i j = v := by
  unfold updFun
  rw [if_pos ⟨rfl, rfl⟩]

theorem updFun_other (m : ℕ → ℕ → Option ℚ) (i j a b : ℕ) (v : Option ℚ)
    (h : ¬(a = i ∧ b = j)) : updFun m i j v a b = m a b := by
  unfold updFun
  rw [if_neg h]

theorem matsfun_inner_fold (vd vs : ℕ → Option ℚ) (a dbase : ℕ) (c : ℕ)
    (acc : MatsFun) (x y : ℕ) :
    (((List.range c).foldl (fun acc2 j =>
        { durations := updFun acc2.durations a (dbase + j) (vd j)
          distances := updFun acc2.distances a (dbase + j) (vs j) }) acc)).durations x y
      = (if x = a ∧ dbase ≤ y ∧ y < dbase + c then vd (y - dbase) else acc.durations x y)
    ∧ (((List.range c).foldl (fun acc2 j =>
        { durations := updFun acc2.durations a (dbase + j) (vd j)
          distances := updFun acc2.distances a (dbase + j) (vs j) }) acc)).distances x y
      = (if x = a ∧ dbase ≤ y ∧ y < dbase + c then vs (y - dbase) else acc.distances x y) := by
  induction c with
  | zero =>
    constructor <;> rw [if_neg (by omega)] <;> rfl
  | succ c ih =>
    rw [List.range_succ, List.foldl_append, List.foldl_cons, List.foldl_nil]
    dsimp only
    by_cases hc : x = a ∧ y = dbase + c
    · obtain ⟨hx, hy⟩ := hc
      subst hx
      subst hy
      constructor
      · rw [updFun_same, if_pos ⟨rfl, by omega, by omega⟩]
        congr 1
        omega
      · rw [updFun_same, if_pos ⟨rfl, by omega, by omega⟩]
        congr 1
        omega
    · constructor
      · rw [updFun_other _ _ _ _ _ _ hc, ih.1]
        by_cases h1 : x = a ∧ dbase ≤ y ∧ y < dbase + c
        · rw [if_pos h1, if_pos ⟨h1.1, h1.2.1, by omega⟩]
        · rw [if_neg h1, if_neg (by intro h2; exact h1 ⟨h2.1, h2.2.1, by omega⟩)]
      · rw [updFun_other _ _ _ _ _ _ hc, ih.2]
        by_cases h1 : x = a ∧ dbase ≤ y ∧ y < dbase + c
        · rw [if_pos h1, if_pos ⟨h1.1, h1.2.1, by omega⟩]
        · rw [if_neg h1, if_neg (by intro h2; exact h1 ⟨h2.1, h2.2.1, by omega⟩)]

theorem matsfun_outer_fold (vd vs : ℕ → ℕ → Option ℚ) (obase dbase : ℕ) (r c : ℕ)
    (st : MatsFun) (x y : ℕ) :
    (((List.range r).foldl (fun acc i =>
        (List.range c).foldl (fun acc2 j =>
          { durations := updFun acc2.durations (obase + i) (dbase + j) (vd i j)
            distances := updFun acc2.distances (obase + i) (dbase + j) (vs i j) }) acc) st)).durations x y
      = (if obase ≤ x ∧ x < obase + r ∧ dbase ≤ y ∧ y < dbase + c
         then vd (x - obase) (y - dbase) else st.durations x y)
    ∧ (((List.range r).foldl (fun acc i =>
        (List.range c).foldl (fun acc2 j =>
          { durations := updFun acc2.durations (obase + i) (dbase + j) (vd i j)
            distances := updFun acc2.distances (obase + i) (dbase + j) (vs i j) }) acc) st)).distances x y
      = (if obase ≤ x ∧ x < obase + r ∧ dbase ≤ y ∧ y < dbase + c
         then vs (x - obase) (y - dbase) else st.distances x y) := by
  induction r with
  | zero =>
    constructor <;> rw [if_neg (by omega)] <;> rfl
  | succ r ih =>
    rw [List.range_succ, List.foldl_append, List.foldl_cons, List.foldl_nil]
    have hinner := matsfun_inner_fold (vd r) (vs r) (obase + r) dbase c
      ((List.range r).foldl (fun acc i =>
        (List.range c).foldl (fun acc2 j =>
          { durations := updFun acc2.durations (obase + i) (dbase + j) (vd i j)
            distances := updFun acc2.distances (obase + i) (dbase + j) (vs i j) }) acc) st) x y
    rw [hinner.1, hinner.2]
    by_cases hrow : x = obase + r
    · subst hrow
      constructor
      · by_cases hcol : dbase ≤ y ∧ y < dbase + c
        · rw [if_pos ⟨rfl, hcol.1, hcol.2⟩, if_pos ⟨by omega, by omega, hcol.1, hcol.2⟩]
          congr 1
          omega
        · rw [if_neg (by intro h2; exact hcol ⟨h2.2.1, h2.2.2⟩), ih.1,
            if_neg (by omega), if_neg (by intro h2; exact hcol ⟨h2.2.2.1, h2.2.2.2⟩)]
      · by_cases hcol : dbase ≤ y ∧ y < dbase + c
        · rw [if_pos ⟨rfl, hcol.1, hcol.2⟩, if_pos ⟨by omega, by omega, hcol.1, hcol.2⟩]
          congr 1
          omega
        · rw [if_neg (by intro h2; exact hcol ⟨h2.2.1, h2.2.2⟩), ih.2,
            if_neg (by omega), if_neg (by intro h2; exact hcol ⟨h2.2.2.1, h2.2.2.2⟩)]
    · constructor
      · rw [if_neg (by intro h2; exact hrow h2.1), ih.1]
        by_cases h1 : obase ≤ x ∧ x < obase + r ∧ dbase ≤ y ∧ y < dbase + c
        · rw [if_pos h1, if_pos ⟨h1.1, by omega, h1.2.2.1, h1.2.2.2⟩]
        · rw [if_neg h1, if_neg (by intro h2; exact h1 ⟨h2.1, by omega, h2.2.2.1, h2.2.2.2⟩)]
      · rw [if_neg (by intro h2; exact hrow h2.1), ih.2]
        by_cases h1 : obase ≤ x ∧ x < obase + r ∧ dbase ≤ y ∧ y < dbase + c
        · rw [if_pos h1, if_pos ⟨h1.1, by omega, h1.2.2.1, h1.2.2.2⟩]
        · rw [if_neg h1, if_neg (by intro h2; exact h1 ⟨h2.1, by omega, h2.2.2.1, h2.2.2.2⟩)]

theorem stitchBlock_cells (st : MatsFun) (res : MatrixResult) (o oEnd d dEnd x y : ℕ) :
    (stitchBlock st res o oEnd d dEnd).durations x y
      = (if o ≤ x ∧ x < o + (oEnd - o) ∧ d ≤ y ∧ y < d + (dEnd - d)
         then (if res.durations.isEmpty then none else mcell res.durations (x - o) (y - d))
         else st.durations x y)
    ∧ (stitchBlock st res o oEnd d dEnd).distances x y
      = (if o ≤ x ∧ x < o + (oEnd - o) ∧ d ≤ y ∧ y < d + (dEnd - d)
         then (if res.distances.isEmpty then none else mcell res.distances (x - o) (y - d))
         else st.distances x y) :=
  matsfun_outer_fold
    (fun i j => if res.durations.isEmpty then none else mcell res.durations i j)
    (fun i j => if res.distances.isEmpty then none else mcell res.distances i j)
    o d (oEnd - o) (dEnd - d) st x y

theorem getD_slice (coords : List (ℚ × ℚ)) (o t s : ℕ) (hs : s < t) :
    ((coords.drop o).take t).getD s (0, 0) = coords.getD (o + s) (0, 0) := by
  rw [List.getD_eq_getElem?_getD, List.getElem?_take, if_pos hs, List.getElem?_drop,
    List.getD_eq_getElem?_getD]

theorem map_range_isEmpty_false {α : Type} (f : ℕ → α) (m : ℕ) (h : m ≠ 0) :
    (List.map f (List.range m)).isEmpty = false := by
  rw [List.isEmpty_eq_false, ne_eq, List.map_eq_nil_iff, List.range_eq_nil]
  exact h

theorem consistent_block_cell (g : (ℚ × ℚ) → (ℚ × ℚ) → Option ℚ)
    (coords : List (ℚ × ℚ)) (oL dL o d i j : ℕ)
    (hio : i < oL) (hjd : j < dL)
    (hoL : ((coords.drop o).take oL).length = oL) :
    mcell (List.map (fun s => List.map
        (fun t => g ((((coords.drop o).take oL) ++ ((coords.drop d).take dL)).getD s (0, 0))
                    ((((coords.drop o).take oL) ++ ((coords.drop d).take dL)).getD t (0, 0)))
        (List.map (fun j => oL + j) (List.range dL)))
      (List.range oL)) i j
    = g (coords.getD (o + i) (0, 0)) (coords.getD (d + j) (0, 0)) := by
  unfold mcell
  rw [getD_map_range oL _ [] i hio, List.map_map, getD_map_range dL _ none j hjd]
  simp only [Function.comp_apply]
  rw [List.getD_append _ _ (0, 0) i (by rw [hoL]; omega),
    getD_slice coords o oL i hio,
    List.getD_append_right _ _ (0, 0) (oL + j) (by rw [hoL]; omega), hoL,
    show oL + j - oL = j from by omega,
    getD_slice coords d dL j hjd]

theorem do_block_consistent_cells (gD gS : (ℚ × ℚ) → (ℚ × ℚ) → Option ℚ)
    (token : String) (coords : List (ℚ × ℚ)) (K block o d : ℕ)
    (htok : ¬ token = "") (hb : 1 ≤ block) (hsz : 2 * block ≤ K)
    (ho : o < coords.length) (hd : d < coords.length) (st : MatsFun) :
    ∃ st' log,
      _do_block token (consistentNet gD gS) coords K st
          (o, min coords.length (o + block), d, min coords.length (d + block))
        = (Except.ok st', log)
      ∧ ∀ x y,
          st'.durations x y
            = (if o ≤ x ∧ x < min coords.length (o + block)
                  ∧ d ≤ y ∧ y < min coords.length (d + block)
               then gD (coords.getD x (0, 0)) (coords.getD y (0, 0))
               else st.durations x y)
          ∧ st'.distances x y
            = (if o ≤ x ∧ x < min coords.length (o + block)
                  ∧ d ≤ y ∧ y < min coords.length (d + block)
               then gS (coords.getD x (0, 0)) (coords.getD y (0, 0))
               else st.distances x y) := by
  have hoL : ((coords.drop o).take (min coords.length (o + block) - o)).length
      = min coords.length (o + block) - o := by
    rw [List.length_take, List.length_drop]
    omega
  have hdL : ((coords.drop d).take (min coords.length (d + block) - d)).length
      = min coords.length (d + block) - d := by
    rw [List.length_take, List.length_drop]
    omega
  unfold _do_block
  dsimp only
  rw [if_neg (by rw [List.length_append, hoL, hdL]; omega)]
  simp only [fetch_matrix, if_neg htok, consistentNet, Option.getD_some, hoL, hdL]
  refine ⟨_, _, rfl, ?_⟩
  intro x y
  rw [(stitchBlock_cells _ _ _ _ _ _ x y).1, (stitchBlock_cells _ _ _ _ _ _ x y).2]
  constructor
  · by_cases hc : o ≤ x ∧ x < coords.length ⊓ (o + block)
        ∧ d ≤ y ∧ y < coords.length ⊓ (d + block)
    · rw [if_pos ⟨hc.1, by omega, hc.2.2.1, by omega⟩, if_pos hc,
        map_range_isEmpty_false _ _ (by omega)]
      simp only [Bool.false_eq_true, if_false]
      rw [consistent_block_cell gD coords _ _ o d (x - o) (y - d)
        (by omega) (by omega) hoL,
        show o + (x - o) = x from by omega, show d + (y - d) = y from by omega]
    · rw [if_neg (by intro h2; exact hc ⟨h2.1, by omega, h2.2.2.1, by omega⟩), if_neg hc]
  · by_cases hc : o ≤ x ∧ x < coords.length ⊓ (o + block)
        ∧ d ≤ y ∧ y < coords.length ⊓ (d + block)
    · rw [if_pos ⟨hc.1, by omega, hc.2.2.1, by omega⟩, if_pos hc,
        map_range_isEmpty_false _ _ (by omega)]
      simp only [Bool.false_eq_true, if_false]
      rw [consistent_block_cell gS coords _ _ o d (x - o) (y - d)
        (by omega) (by omega) hoL,
        show o + (x - o) = x from by omega, show d + (y - d) = y from by omega]
    · rw [if_neg (by intro h2; exact hc ⟨h2.1, by omega, h2.2.2.1, by omega⟩), if_neg hc]

theorem run_blocks_consistent (gD gS : (ℚ × ℚ) → (ℚ × ℚ) → Option ℚ)
    (token : String) (coords : List (ℚ × ℚ)) (K block : ℕ)
    (htok : ¬ token = "") (hb : 1 ≤ block) (hsz : 2 * block ≤ K)
    (ts : List (ℕ × ℕ × ℕ × ℕ))
    (hts : ∀ blk ∈ ts, ∃ o d,
      blk = (o, min coords.length (o + block), d, min coords.length (d + block))
      ∧ o < coords.length ∧ d < coords.length)
    (st : MatsFun) :
    ∃ st' log,
      _run_blocks token (consistentNet gD gS) coords K st ts = (Except.ok st', log)
      ∧ ∀ x y,
        st'.durations x y
          = (if ∃ blk ∈ ts, blk.1 ≤ x ∧ x < blk.2.1 ∧ blk.2.2.1 ≤ y ∧ y < blk.2.2.2
             then gD (coords.getD x (0, 0)) (coords.getD y (0, 0))
             else st.durations x y)
        ∧ st'.distances x y
          = (if ∃ blk ∈ ts, blk.1 ≤ x ∧ x < blk.2.1 ∧ blk.2.2.1 ≤ y ∧ y < blk.2.2.2
             then gS (coords.getD x (0, 0)) (coords.getD y (0, 0))
             else st.distances x y) := by
  induction ts generalizing st with
  | nil =>
    refine ⟨st, [], rfl, ?_⟩
    intro x y
    constructor <;> rw [if_neg (by simp)]
  | cons blk rest ih =>
    obtain ⟨o, d, hblk, ho, hd⟩ := hts blk (List.mem_cons_self _ _)
    obtain ⟨st2, log2, hdo, hcells⟩ :=
      do_block_consistent_cells gD gS token coords K block o d htok hb hsz ho hd st
    obtain ⟨st3, log3, hrun, hcells3⟩ :=
      ih (fun b hb' => hts b (List.mem_cons_of_mem _ hb')) st2
    refine ⟨st3, log2 ++ log3, ?_, ?_⟩
    · subst hblk
      simp only [_run_blocks, hdo, hrun]
    · intro x y
      have h2 := hcells x y
      have h3 := hcells3 x y
      constructor
      · rw [h3.1, h2.1]
        by_cases hr : ∃ b ∈ rest, b.1 ≤ x ∧ x < b.2.1 ∧ b.2.2.1 ≤ y ∧ y < b.2.2.2
        · have hc : ∃ b ∈ blk :: rest, b.1 ≤ x ∧ x < b.2.1 ∧ b.2.2.1 ≤ y ∧ y < b.2.2.2 := by
            obtain ⟨b, hm, hcv⟩ := hr
            exact ⟨b, List.mem_cons_of_mem _ hm, hcv⟩
          rw [if_pos hr, if_pos hc]
        · rw [if_neg hr]
          by_cases hh : o ≤ x ∧ x < min coords.length (o + block)
              ∧ d ≤ y ∧ y < min coords.length (d + block)
          · have hc : ∃ b ∈ blk :: rest, b.1 ≤ x ∧ x < b.2.1 ∧ b.2.2.1 ≤ y ∧ y < b.2.2.2 := by
              refine ⟨blk, List.mem_cons_self _ _, ?_⟩
              rw [hblk]
              exact ⟨hh.1, hh.2.1, hh.2.2.1, hh.2.2.2⟩
            rw [if_pos hh, if_pos hc]
          · have hc : ¬ ∃ b ∈ blk :: rest,
                b.1 ≤ x ∧ x < b.2.1 ∧ b.2.2.1 ≤ y ∧ y < b.2.2.2 := by
              rintro ⟨b, hbmem, hbcov⟩
              rcases List.mem_cons.mp hbmem with hbeq | hbmem'
              · subst hbeq
                rw [hblk] at hbcov
                exact hh ⟨hbcov.1, hbcov.2.1, hbcov.2.2.1, hbcov.2.2.2⟩
              · exact hr ⟨b, hbmem', hbcov⟩
            rw [if_neg hh, if_neg hc]
      · rw [h3.2, h2.2]
        by_cases hr : ∃ b ∈ rest, b.1 ≤ x ∧ x < b.2.1 ∧ b.2.2.1 ≤ y ∧ y < b.2.2.2
        · have hc : ∃ b ∈ blk :: rest, b.1 ≤ x ∧ x < b.2.1 ∧ b.2.2.1 ≤ y ∧ y < b.2.2.2 := by
            obtain ⟨b, hm, hcv⟩ := hr
            exact ⟨b, List.mem_cons_of_mem _ hm, hcv⟩
          rw [if_pos hr, if_pos hc]
        · rw [if_neg hr]
          by_cases hh : o ≤ x ∧ x < min coords.length (o + block)
              ∧ d ≤ y ∧ y < min coords.length (d + block)
          · have hc : ∃ b ∈ blk :: rest, b.1 ≤ x ∧ x < b.2.1 ∧ b.2.2.1 ≤ y ∧ y < b.2.2.2 := by
              refine ⟨blk, List.mem_cons_self _ _, ?_⟩
              rw [hblk]
              exact ⟨hh.1, hh.2.1, hh.2.2.1, hh.2.2.2⟩
            rw [if_pos hh, if_pos hc]
          · have hc : ¬ ∃ b ∈ blk :: rest,
                b.1 ≤ x ∧ x < b.2.1 ∧ b.2.2.1 ≤ y ∧ y < b.2.2.2 := by
              rintro ⟨b, hbmem, hbcov⟩
              rcases List.mem_cons.mp hbmem with hbeq | hbmem'
              · subst hbeq
                rw [hblk] at hbcov
                exact hh ⟨hbcov.1, hbcov.2.1, hbcov.2.2.1, hbcov.2.2.2⟩
              · exact hr ⟨b, hbmem', hbcov⟩
            rw [if_neg hh, if_neg hc]

theorem chunkStarts_lt (n block : ℕ) (hb : 1 ≤ block) (o : ℕ)
    (hm : o ∈ chunkStarts n block) : o < n := by
  unfold chunkStarts at hm
  rw [List.mem_map] at hm
  obtain ⟨t, htm, rfl⟩ := hm
  rw [List.mem_range] at htm
  have h1 : (t + 1) * block ≤ n + block - 1 :=
    (Nat.le_div_iff_mul_le (by omega)).mp htm
  rw [Nat.succ_mul] at h1
  omega

theorem blockTasks_mem_shape (n block : ℕ) (hb : 1 ≤ block) (blk : ℕ × ℕ × ℕ × ℕ)
    (hm : blk ∈ blockTasks n block) :
    ∃ o d, blk = (o, min n (o + block), d, min n (d + block)) ∧ o < n ∧ d < n := by
  unfold blockTasks at hm
  rw [List.mem_flatMap] at hm
  obtain ⟨o, hom, hm2⟩ := hm
  rw [List.mem_map] at hm2
  obtain ⟨d, hdm, hblk⟩ := hm2
  exact ⟨o, d, hblk.symm, chunkStarts_lt n block hb o hom, chunkStarts_lt n block hb d hdm⟩

theorem chunkStarts_mem_of_lt (n block : ℕ) (hb : 1 ≤ block) (x : ℕ) (hx : x < n) :
    x / block * block ∈ chunkStarts n block := by
  unfold chunkStarts
  rw [List.mem_map]
  refine ⟨x / block, List.mem_range.mpr ?_, rfl⟩
  have h1 : n + block - 1 = (n - 1) + block := by omega
  rw [h1, Nat.add_div_right _ (by omega)]
  have h2 : x / block ≤ (n - 1) / block := Nat.div_le_div_right (by omega)
  omega

theorem blockTasks_covers (n block : ℕ) (hb : 1 ≤ block) (x y : ℕ)
    (hx : x < n) (hy : y < n) :
    ∃ blk ∈ blockTasks n block,
      blk.1 ≤ x ∧ x < blk.2.1 ∧ blk.2.2.1 ≤ y ∧ y < blk.2.2.2 := by
  refine ⟨(x / block * block, min n (x / block * block + block),
           y / block * block, min n (y / block * block + block)), ?_, ?_, ?_, ?_, ?_⟩
  · unfold blockTasks
    rw [List.mem_flatMap]
    refine ⟨x / block * block, chunkStarts_mem_of_lt n block hb x hx, ?_⟩
    rw [List.mem_map]
    exact ⟨y / block * block, chunkStarts_mem_of_lt n block hb y hy, rfl⟩
  · exact Nat.div_mul_le_self x block
  · dsimp only
    have := Nat.lt_div_mul_add (a := x) (show 0 < block by omega)
    omega
  · exact Nat.div_mul_le_self y block
  · dsimp only
    have := Nat.lt_div_mul_add (a := y) (show 0 < block by omega)
    omega

/-- C2: against a mocked provider returning consistent per-cell values
independent of the request partition, the chunked matrix fetch succeeds and
fills every cell `[i][j]` with the ground-truth value for the pair of
coordinates `(i, j)` — via the unique block pair containing the cell — which
is exactly the value the single unchunked `fetch_matrix` request returns for
that cell. -/
theorem chunked_fetch_matches_unchunked (gD gS : (ℚ × ℚ) → (ℚ × ℚ) → Option ℚ)
    (token : String) (coords : List (ℚ × ℚ)) (K i j : ℕ)
    (htok : ¬ token = "") (hK : 2 ≤ K)
    (hi : i < coords.length) (hj : j < coords.length) :
    ∃ M Mfull log logf,
      fetch_full_square_matrix_chunked token (consistentNet gD gS) coords K
        = (Except.ok M, log)
      ∧ fetch_matrix token (consistentNet gD gS) coords none none
        = (Except.ok Mfull, logf)
      ∧ mcell M.durations i j = gD (coords.getD i (0, 0)) (coords.getD j (0, 0))
      ∧ mcell M.distances i j = gS (coords.getD i (0, 0)) (coords.getD j (0, 0))
      ∧ mcell M.durations i j = mcell Mfull.durations i j
      ∧ mcell M.distances i j = mcell Mfull.distances i j := by
  have hb : 1 ≤ max 1 (K / 2) := le_max_left _ _
  have hKd : max 1 (K / 2) = K / 2 := max_eq_right (by
    rw [Nat.le_div_iff_mul_le (by omega)]
    omega)
  have hsz : 2 * max 1 (K / 2) ≤ K := by
    rw [hKd]
    have := Nat.div_mul_le_self K 2
    omega
  obtain ⟨st', log, hrun, hcells⟩ :=
    run_blocks_consistent gD gS token coords K (max 1 (K / 2)) htok hb hsz
      (blockTasks coords.length (max 1 (K / 2)))
      (fun blk hm => blockTasks_mem_shape coords.length _ hb blk hm)
      ⟨fun _ _ => none, fun _ _ => none⟩
  have hn0 : ¬ coords.length = 0 := by omega
  have hchunk : fetch_full_square_matrix_chunked token (consistentNet gD gS) coords K
      = (Except.ok
          ⟨(List.range coords.length).map fun a =>
              (List.range coords.length).map fun b => st'.durations a b,
           (List.range coords.length).map fun a =>
              (List.range coords.length).map fun b => st'.distances a b⟩, log) := by
    unfold fetch_full_square_matrix_chunked
    rw [if_neg hn0]
    dsimp only
    rw [hrun]
  have hfull : fetch_matrix token (consistentNet gD gS) coords none none
      = (Except.ok
          ⟨(List.range coords.length).map fun s =>
              (List.range coords.length).map fun t =>
                gD (coords.getD s (0, 0)) (coords.getD t (0, 0)),
           (List.range coords.length).map fun s =>
              (List.range coords.length).map fun t =>
                gS (coords.getD s (0, 0)) (coords.getD t (0, 0))⟩,
         [⟨coords, none, none⟩]) := by
    simp only [fetch_matrix, if_neg htok, consistentNet, Option.getD_none]
  have hcov := blockTasks_covers coords.length (max 1 (K / 2)) hb i j hi hj
  have hdur : st'.durations i j = gD (coords.getD i (0, 0)) (coords.getD j (0, 0)) := by
    rw [(hcells i j).1, if_pos hcov]
  have hdis : st'.distances i j = gS (coords.getD i (0, 0)) (coords.getD j (0, 0)) := by
    rw [(hcells i j).2, if_pos hcov]
  refine ⟨_, _, log, _, hchunk, hfull, ?_, ?_, ?_, ?_⟩
  · show mcell _ i j = _
    unfold mcell
    rw [getD_map_range _ _ [] i hi, getD_map_range _ _ none j hj, hdur]
  · show mcell _ i j = _
    unfold mcell
    rw [getD_map_range _ _ [] i hi, getD_map_range _ _ none j hj, hdis]
  · show mcell _ i j = mcell _ i j
    unfold mcell
    rw [getD_map_range _ _ [] i hi, getD_map_range _ _ none j hj, hdur,
      getD_map_range _ _ [] i hi, getD_map_range _ _ none j hj]
  · show mcell _ i j = mcell _ i j
    unfold mcell
    rw [getD_map_range _ _ [] i hi, getD_map_range _ _ none j hj, hdis,
      getD_map_range _ _ [] i hi, getD_map_range _ _ none j hj]

/-- Witness for C2: three coordinates fetched with a two-coordinate request
limit (so chunking is required) against the all-zero consistent provider. -/
theorem chunked_fetch_matches_unchunked_witness :
    (¬ ("tok" : String) = "" ∧ 2 ≤ 2
      ∧ 0 < ([((0 : ℚ), (0 : ℚ)), (1, 1), (2, 2)] : List (ℚ × ℚ)).length
      ∧ 2 < ([((0 : ℚ), (0 : ℚ)), (1, 1), (2, 2)] : List (ℚ × ℚ)).length)
    ∧ ∃ M Mfull log logf,
        fetch_full_square_matrix_chunked "tok" (consistentNet gZero gZero)
            [((0 : ℚ), (0 : ℚ)), (1, 1), (2, 2)] 2
          = (Except.ok M, log)
        ∧ fetch_matrix "tok" (consistentNet gZero gZero)
            [((0 : ℚ), (0 : ℚ)), (1, 1), (2, 2)] none none
          = (Except.ok Mfull, logf)
        ∧ mcell M.durations 0 2
            = gZero (([((0 : ℚ), (0 : ℚ)), (1, 1), (2, 2)] : List (ℚ × ℚ)).getD 0 (0, 0))
                (([((0 : ℚ), (0 : ℚ)), (1, 1), (2, 2)] : List (ℚ × ℚ)).getD 2 (0, 0))
        ∧ mcell M.distances 0 2
            = gZero (([((0 : ℚ), (0 : ℚ)), (1, 1), (2, 2)] : List (ℚ × ℚ)).getD 0 (0, 0))
                (([((0 : ℚ), (0 : ℚ)), (1, 1), (2, 2)] : List (ℚ × ℚ)).getD 2 (0, 0))
        ∧ mcell M.durations 0 2 = mcell Mfull.durations 0 2
        ∧ mcell M.distances 0 2 = mcell Mfull.distances 0 2 :=
  ⟨⟨by decide, by decide, by decide, by decide⟩,
   chunked_fetch_matches_unchunked gZero gZero "tok"
     [((0 : ℚ), (0 : ℚ)), (1, 1), (2, 2)] 2 0 2
     (by decide) (by decide) (by decide) (by decide)⟩
